import Mathlib

/-!
Verification of the verified-models registry (entity, store, API routes)
against its specification.  The data-access layer
(`enterprise/storage/verified_model_store.py`) is embedded as pure
functions over an explicit table state; the API routes
(`enterprise/server/routes/verified_models.py`) as functions returning
`Except` for HTTP error responses.  Timestamps are modelled as natural
numbers: every mutating operation receives the clock value `now` that
stands for the database's `func.now()` during its transaction.
-/

deriving instance DecidableEq for Except

/-- Embedding of the `VerifiedModel` entity (`storage/verified_model.py`):
surrogate integer primary key, the two identifier strings, six boolean
flags and the two timestamps (`DateTime` modelled as `Nat`). -/
structure VerifiedModel where
  id : Nat
  model_name : String
  provider : String
  is_verified : Bool
  is_enabled : Bool
  supports_function_calling : Bool
  supports_vision : Bool
  supports_prompt_cache : Bool
  supports_reasoning_effort : Bool
  created_at : Nat
  updated_at : Nat
deriving Repr, DecidableEq

/-- A database state: the rows of the `verified_models` table in insertion
order, and the value the `id` autoincrement sequence hands out next. -/
structure DB where
  table : List VerifiedModel
  nextId : Nat
deriving Repr, DecidableEq

/-- `VerifiedModelStore.get_all_models`: `session.query(VerifiedModel).all()`. -/
def get_all_models (db : DB) : List VerifiedModel :=
  db.table

/-- `VerifiedModelStore.get_enabled_models`:
`.filter(VerifiedModel.is_enabled == True)`. -/
def get_enabled_models (db : DB) : List VerifiedModel :=
  db.table.filter (fun m => m.is_enabled == true)

/-- `VerifiedModelStore.get_verified_models`:
`.filter(and_(VerifiedModel.is_verified == True, VerifiedModel.is_enabled == True))`. -/
def get_verified_models (db : DB) : List VerifiedModel :=
  db.table.filter (fun m => m.is_verified == true && m.is_enabled == true)

/-- `VerifiedModelStore.get_models_by_provider`:
`.filter(and_(VerifiedModel.provider == provider, VerifiedModel.is_enabled == True))`. -/
def get_models_by_provider (db : DB) (provider : String) : List VerifiedModel :=
  db.table.filter (fun m => m.provider == provider && m.is_enabled == true)

/-- `VerifiedModelStore.get_model_by_name`:
`.filter(VerifiedModel.model_name == model_name).first()`. -/
def get_model_by_name (db : DB) (model_name : String) : Option VerifiedModel :=
  db.table.find? (fun m => m.model_name == model_name)

/-- The keyword arguments of `VerifiedModelStore.create_model` (and the keys
of one dictionary passed to `bulk_create_models`); the defaults are those of
the Python signature, which coincide with the column defaults of the entity. -/
structure CreateArgs where
  model_name : String
  provider : String
  is_verified : Bool := true
  is_enabled : Bool := true
  supports_function_calling : Bool := false
  supports_vision : Bool := false
  supports_prompt_cache : Bool := false
  supports_reasoning_effort : Bool := false
deriving Repr, DecidableEq

/-- The row `VerifiedModel(**fields)` receives on insert: the next sequence
value as `id`, the given fields, and `created_at = updated_at = now`
(`server_default=func.now()`). -/
def mkModel (id : Nat) (args : CreateArgs) (now : Nat) : VerifiedModel :=
  { id := id
    model_name := args.model_name
    provider := args.provider
    is_verified := args.is_verified
    is_enabled := args.is_enabled
    supports_function_calling := args.supports_function_calling
    supports_vision := args.supports_vision
    supports_prompt_cache := args.supports_prompt_cache
    supports_reasoning_effort := args.supports_reasoning_effort
    created_at := now
    updated_at := now }

/-- `VerifiedModelStore.create_model`: query for an existing row with the
same `model_name`; if found raise `ValueError(f'Model {model_name} already
exists')`, otherwise add the new row and commit.  An error leaves the
database unchanged (the raise happens before any insert). -/
def create_model (db : DB) (args : CreateArgs) (now : Nat) :
    Except String (VerifiedModel × DB) :=
  match db.table.find? (fun m => m.model_name == args.model_name) with
  | some _ => Except.error ("Model " ++ args.model_name ++ " already exists")
  | none =>
    let model := mkModel db.nextId args now
    Except.ok (model, { table := db.table ++ [model], nextId := db.nextId + 1 })

/-- The optional keyword arguments of `VerifiedModelStore.update_model`
(`None` = field not supplied). -/
structure UpdateArgs where
  is_verified : Option Bool := none
  is_enabled : Option Bool := none
  supports_function_calling : Option Bool := none
  supports_vision : Option Bool := none
  supports_prompt_cache : Option Bool := none
  supports_reasoning_effort : Option Bool := none
deriving Repr, DecidableEq

/-- The six `if x is not None: model.x = x` assignments of `update_model`,
in source order. -/
def applyUpdateArgs (args : UpdateArgs) (model : VerifiedModel) : VerifiedModel :=
  let model := match args.is_verified with
    | some b => { model with is_verified := b }
    | none => model
  let model := match args.is_enabled with
    | some b => { model with is_enabled := b }
    | none => model
  let model := match args.supports_function_calling with
    | some b => { model with supports_function_calling := b }
    | none => model
  let model := match args.supports_vision with
    | some b => { model with supports_vision := b }
    | none => model
  let model := match args.supports_prompt_cache with
    | some b => { model with supports_prompt_cache := b }
    | none => model
  let model := match args.supports_reasoning_effort with
    | some b => { model with supports_reasoning_effort := b }
    | none => model
  model

/-- `VerifiedModelStore.update_model`: find the row by `model_name` (first
match), return `None` untouched if absent; otherwise apply the non-`None`
arguments and commit.  SQLAlchemy's flush emits an `UPDATE ... WHERE id = ?`
only when some assigned attribute has a net change relative to its stored
value (its `Session.dirty` check is optimistic, but at flush time each
attribute is compared to its previously saved value and no SQL runs when
nothing changed); only an actual `UPDATE` fires the `onupdate=func.now()`
hook on `updated_at`.  So when the applied arguments leave the row equal to
its stored value, no `UPDATE` is issued and `updated_at` keeps its value. -/
def update_model (db : DB) (model_name : String) (args : UpdateArgs) (now : Nat) :
    Option VerifiedModel × DB :=
  match db.table.find? (fun m => m.model_name == model_name) with
  | none => (none, db)
  | some model =>
    let updated := applyUpdateArgs args model
    if updated == model then
      (some model, db)
    else
      let final := { updated with updated_at := now }
      (some final,
        { db with table := db.table.map (fun r => if r.id == model.id then final else r) })

/-- `VerifiedModelStore.delete_model`: find the row by `model_name`, return
`False` if absent, otherwise `session.delete` (a `DELETE` by primary key)
and commit, returning `True`. -/
def delete_model (db : DB) (model_name : String) : Bool × DB :=
  match db.table.find? (fun m => m.model_name == model_name) with
  | none => (false, db)
  | some model =>
    (true, { db with table := db.table.filter (fun r => !(r.id == model.id)) })

/-- Where an unexpected exception strikes `bulk_create_models`: nowhere, at
the iteration step for item `i`, or at the final `session.commit()`.  This
stands for the "constraint violation not caught by the pre-check,
serialization failure, etc." of the spec; the code itself only catches,
rolls back and re-raises. -/
inductive BulkFault where
  | noFault : BulkFault
  | atItem : Nat → BulkFault
  | atCommit : BulkFault
deriving Repr, DecidableEq

/-- The `for model_data in models:` loop of `bulk_create_models`, run inside
one session: `visible` is what queries see (committed rows plus the pending
adds, which the session's autoflush makes visible to the duplicate check),
`idx` the position of the next item.  Returns the created count, the table
as it stands at commit, and the advanced sequence — or the injected
exception. -/
def bulkLoop (visible : List VerifiedModel) (nextId : Nat)
    (items : List CreateArgs) (idx : Nat) (fault : BulkFault) (now : Nat) :
    Except Unit (Nat × List VerifiedModel × Nat) :=
  match items with
  | [] =>
    match fault with
    | BulkFault.atCommit => Except.error ()
    | _ => Except.ok (0, visible, nextId)
  | item :: rest =>
    if fault == BulkFault.atItem idx then Except.error ()
    else
      match visible.find? (fun m => m.model_name == item.model_name) with
      | some _ => bulkLoop visible nextId rest (idx + 1) fault now
      | none =>
        let model := mkModel nextId item now
        match bulkLoop (visible ++ [model]) (nextId + 1) rest (idx + 1) fault now with
        | Except.error e => Except.error e
        | Except.ok (c, vis, nid) => Except.ok (c + 1, vis, nid)

/-- `VerifiedModelStore.bulk_create_models`: run the loop and commit; on any
exception `session.rollback()` discards every pending row of the batch and
the exception is re-raised (`raise`), so the caller sees the error and the
original state. -/
def bulk_create_models (db : DB) (items : List CreateArgs) (fault : BulkFault)
    (now : Nat) : Except Unit Nat × DB :=
  match bulkLoop db.table db.nextId items 0 fault now with
  | Except.error _ => (Except.error (), db)
  | Except.ok (c, vis, nid) => (Except.ok c, { table := vis, nextId := nid })

/-- The rows the fault-free bulk loop inserts, in order: an item is skipped
exactly when its `model_name` is already visible (committed rows or an
earlier insert of the same batch), and an inserted item becomes visible to
the checks that follow it. -/
def bulkInserted (visible : List VerifiedModel) (nextId : Nat)
    (items : List CreateArgs) (now : Nat) : List VerifiedModel :=
  match items with
  | [] => []
  | item :: rest =>
    match visible.find? (fun m => m.model_name == item.model_name) with
    | some _ => bulkInserted visible nextId rest now
    | none =>
      let model := mkModel nextId item now
      model :: bulkInserted (visible ++ [model]) (nextId + 1) rest now

/-- One call into the store, with the clock value its transaction sees. -/
inductive StoreOp where
  | createOp : CreateArgs → Nat → StoreOp
  | bulkOp : List CreateArgs → BulkFault → Nat → StoreOp
  | updateOp : String → UpdateArgs → Nat → StoreOp
  | deleteOp : String → StoreOp
deriving Repr

/-- The database state after one store call (a raised error leaves the
state as the operation's rollback or pre-insert check left it: unchanged). -/
def applyOp (db : DB) : StoreOp → DB
  | StoreOp.createOp args now =>
    match create_model db args now with
    | Except.ok (_, db2) => db2
    | Except.error _ => db
  | StoreOp.bulkOp items fault now => (bulk_create_models db items fault now).2
  | StoreOp.updateOp name args now => (update_model db name args now).2
  | StoreOp.deleteOp name => (delete_model db name).2

/-- The state after a sequence of store calls. -/
def runOps (db : DB) (ops : List StoreOp) : DB :=
  ops.foldl applyOp db

/-- No two rows share a `model_name`. -/
abbrev namesNodup (table : List VerifiedModel) : Prop :=
  (table.map (fun m => m.model_name)).Nodup

/-- No two rows share an `id` (the table's primary-key constraint). -/
abbrev idsNodup (table : List VerifiedModel) : Prop :=
  (table.map (fun m => m.id)).Nodup

/-- The autoincrement sequence is ahead of every existing `id`. -/
abbrev idsBounded (table : List VerifiedModel) (nextId : Nat) : Prop :=
  ∀ m ∈ table, m.id < nextId

/-- A table the schema can actually produce, with its sequence value:
unique names, unique primary keys, and a sequence ahead of the stored keys. -/
abbrev WFT (table : List VerifiedModel) (nextId : Nat) : Prop :=
  namesNodup table ∧ idsNodup table ∧ idsBounded table nextId

/-- A well-formed database state. -/
abbrev WFDB (db : DB) : Prop :=
  WFT db.table db.nextId

/-- An ASCII-alphanumeric character, the class `[a-zA-Z0-9]` of the route
validation regexes. -/
def isAsciiAlnum (c : Char) : Bool :=
  ( 'a' ≤ c && c ≤ 'z') || ( 'A' ≤ c && c ≤ 'Z') || ( '0' ≤ c && c ≤ '9')

/-- The interior class of the `model_name` regex: `[a-zA-Z0-9_.-]`. -/
def nameMiddleChar (c : Char) : Bool :=
  isAsciiAlnum c || c == '_' || c == '.' || c == '-'

/-- The interior class of the `provider` regex: `[a-zA-Z0-9_-]`. -/
def providerMiddleChar (c : Char) : Bool :=
  isAsciiAlnum c || c == '_' || c == '-'

/-- `[mid]*[a-zA-Z0-9]` on a non-empty remainder: all characters but the
last in the interior class, the last alphanumeric. -/
def tailMatch (mid : Char → Bool) : List Char → Bool
  | [] => false
  | [c] => isAsciiAlnum c
  | c :: rest => mid c && tailMatch mid rest

/-- The language of `[a-zA-Z0-9]([mid]*[a-zA-Z0-9])?` on a whole character
list (the interior class contains the alphanumerics, so greedy matching
needs no backtracking beyond this shape). -/
def coreMatch (mid : Char → Bool) (cs : List Char) : Bool :=
  match cs with
  | [] => false
  | c :: rest => isAsciiAlnum c && (rest.isEmpty || tailMatch mid rest)

/-- Python's `re.match` on a `^...$` pattern: `$` matches at the end of the
string *or just before a newline at the end of the string*, so the pattern
also accepts a valid body followed by one trailing `'\n'`. -/
def pyMatchDollar (mid : Char → Bool) (s : String) : Bool :=
  coreMatch mid s.data ||
    (match s.data.getLast? with
      | some c => c == '\n' && coreMatch mid s.data.dropLast
      | none => false)

/-- `_validate_model_input` of the routes module: the four checks in source
order, each raising `HTTPException(400, detail)`. -/
def validate_model_input (model_name provider : String) :
    Except (Nat × String) Unit :=
  if !(pyMatchDollar nameMiddleChar model_name) then
    Except.error (400, "model_name must start and end with alphanumeric characters, with hyphens, underscores, and dots allowed in the middle")
  else if model_name.length > 255 then
    Except.error (400, "model_name exceeds maximum length of 255 characters")
  else if !(pyMatchDollar providerMiddleChar provider) then
    Except.error (400, "provider must start and end with alphanumeric characters, with hyphens and underscores allowed in the middle")
  else if provider.length > 100 then
    Except.error (400, "provider exceeds maximum length of 100 characters")
  else
    Except.ok ()

/-- The response shape `VerifiedModelResponse` (the two timestamps are
serialised with `isoformat()`; they stay `Nat` here as the serialisation is
injective on the model's clock values). -/
structure VerifiedModelResponse where
  id : Nat
  model_name : String
  provider : String
  is_verified : Bool
  is_enabled : Bool
  supports_function_calling : Bool
  supports_vision : Bool
  supports_prompt_cache : Bool
  supports_reasoning_effort : Bool
  created_at : Nat
  updated_at : Nat
deriving Repr, DecidableEq

/-- `_model_to_response`. -/
def model_to_response (m : VerifiedModel) : VerifiedModelResponse :=
  { id := m.id
    model_name := m.model_name
    provider := m.provider
    is_verified := m.is_verified
    is_enabled := m.is_enabled
    supports_function_calling := m.supports_function_calling
    supports_vision := m.supports_vision
    supports_prompt_cache := m.supports_prompt_cache
    supports_reasoning_effort := m.supports_reasoning_effort
    created_at := m.created_at
    updated_at := m.updated_at }

/-- Python truthiness of the optional `provider` query parameter: truthy
exactly when supplied and non-empty. -/
def providerTruthy : Option String → Bool
  | none => false
  | some p => !(p == "")

/-- The `if provider: ... elif verified_only: ... elif enabled_only: ...
else: ...` dispatch of the list endpoint. -/
def selectModels (db : DB) (provider : Option String)
    (enabled_only verified_only : Bool) : List VerifiedModel :=
  if providerTruthy provider then get_models_by_provider db (provider.getD "")
  else if verified_only then get_verified_models db
  else if enabled_only then get_enabled_models db
  else get_all_models db

/-- The `GET` list endpoint `list_verified_models`: pagination validation
(400 on failure, before any store call), store dispatch, then the Python
slice `models[offset : offset + limit]` — for the validated values
(`offset ≥ 0`, `limit ≥ 1`) that slice is drop-then-take — and response
conversion. -/
def list_verified_models (db : DB) (provider : Option String)
    (enabled_only verified_only : Bool) (limit offset : Int) :
    Except (Nat × String) (List VerifiedModelResponse) :=
  if limit < 1 ∨ limit > 1000 then
    Except.error (400, "limit must be between 1 and 1000")
  else if offset < 0 then
    Except.error (400, "offset must be non-negative")
  else
    let models := selectModels db provider enabled_only verified_only
    let paginated := (models.drop offset.toNat).take limit.toNat
    Except.ok (paginated.map model_to_response)

/-- The `POST` create endpoint `create_verified_model`: validate both
identifier strings, then delegate to `create_model`; the store's
`ValueError` becomes a 400 response. -/
def create_verified_model (db : DB) (model_data : CreateArgs) (now : Nat) :
    Except (Nat × String) (VerifiedModelResponse × DB) :=
  match validate_model_input model_data.model_name model_data.provider with
  | Except.error e => Except.error e
  | Except.ok _ =>
    match create_model db model_data now with
    | Except.error msg => Except.error (400, msg)
    | Except.ok (m, db2) => Except.ok (model_to_response m, db2)

/-- Whether an injected fault actually strikes a given batch: an iteration
step the loop reaches, or the commit; `noFault` never fires. -/
abbrev faultFires (fault : BulkFault) (items : List CreateArgs) : Prop :=
  match fault with
  | BulkFault.noFault => False
  | BulkFault.atItem i => i < items.length
  | BulkFault.atCommit => True

/-- What claim C4 asserts of one `update_model` call on an existing row
`m0`: exactly the non-null arguments overwrite their fields, `id`,
`model_name`, `provider` and `created_at` are untouched, the updated row is
returned and stored, and rows with other names survive. -/
def updateFrameHolds (db : DB) (name : String) (args : UpdateArgs) (now : Nat)
    (m0 : VerifiedModel) : Prop :=
  ∃ m db2, update_model db name args now = (some m, db2) ∧
    m.is_verified = args.is_verified.getD m0.is_verified ∧
    m.is_enabled = args.is_enabled.getD m0.is_enabled ∧
    m.supports_function_calling =
      args.supports_function_calling.getD m0.supports_function_calling ∧
    m.supports_vision = args.supports_vision.getD m0.supports_vision ∧
    m.supports_prompt_cache = args.supports_prompt_cache.getD m0.supports_prompt_cache ∧
    m.supports_reasoning_effort =
      args.supports_reasoning_effort.getD m0.supports_reasoning_effort ∧
    m.id = m0.id ∧ m.model_name = m0.model_name ∧ m.provider = m0.provider ∧
    m.created_at = m0.created_at ∧
    get_model_by_name db2 name = some m ∧
    (∀ r ∈ db.table, r.model_name ≠ name → r ∈ db2.table)

/-- A sample row for concrete witnesses. -/
def sampleModel (i : Nat) (n p : String) (v e : Bool) (t : Nat) : VerifiedModel :=
  { id := i, model_name := n, provider := p, is_verified := v, is_enabled := e,
    supports_function_calling := false, supports_vision := false,
    supports_prompt_cache := false, supports_reasoning_effort := false,
    created_at := t, updated_at := t }

/-- A one-row sample database. -/
def exRow : VerifiedModel := sampleModel 1 "m" "p" true true 0

/-- A one-row sample database holding `exRow`. -/
def exDb : DB := { table := [exRow], nextId := 2 }

/-- An update call that supplies no field at all. -/
def noUpdate : UpdateArgs := {}

/-- An update call that only disables the model. -/
def enableOff : UpdateArgs := { is_enabled := some false }

/-- A three-item batch whose first name already exists in `exDb`. -/
def bulkItems : List CreateArgs :=
  [{ model_name := "m", provider := "q" }, { model_name := "b", provider := "p" },
    { model_name := "c", provider := "p" }]

/-- A three-row sample database for the pagination witness. -/
def pagDb : DB :=
  { table := [sampleModel 1 "m1" "p" true true 0, sampleModel 2 "m2" "p" true true 0,
      sampleModel 3 "m3" "p" true true 0], nextId := 4 }

/-- A sample database with an enabled and a disabled row of provider "a". -/
def c10Db : DB :=
  { table := [sampleModel 1 "m1" "a" true true 0, sampleModel 2 "m2" "a" true false 0],
    nextId := 3 }

/-- The empty database. -/
def emptyDb : DB := { table := [], nextId := 1 }

/-- A create request whose model name ends in a newline. -/
def badArgs : CreateArgs := { model_name := "ab\n", provider := "p" }

/-! ## Supporting lemmas -/

@[simp] theorem mkModel_model_name (i : Nat) (args : CreateArgs) (now : Nat) :
    (mkModel i args now).model_name = args.model_name := rfl

@[simp] theorem mkModel_id (i : Nat) (args : CreateArgs) (now : Nat) :
    (mkModel i args now).id = i := rfl

theorem find?_append_some {α : Type} {p : α → Bool} {l1 l2 : List α} {a : α}
    (h : l1.find? p = some a) : (l1 ++ l2).find? p = some a := by
  rw [List.find?_append, h]
  rfl

theorem find?_append_none {α : Type} {p : α → Bool} {l1 l2 : List α}
    (h : l1.find? p = none) : (l1 ++ l2).find? p = l2.find? p := by
  rw [List.find?_append, h]
  rfl

theorem find?_append_none_left {α : Type} {p : α → Bool} {l1 l2 : List α}
    (h : (l1 ++ l2).find? p = none) : l1.find? p = none := by
  rw [List.find?_append] at h
  cases h1 : l1.find? p with
  | none => rfl
  | some a =>
    rw [h1] at h
    exact absurd h (by simp [Option.or])

/-- Closed form of the six conditional assignments: each field ends at the
argument's value when supplied, at the stored value otherwise. -/
theorem applyUpdateArgs_eq (args : UpdateArgs) (m : VerifiedModel) :
    applyUpdateArgs args m =
      { m with
        is_verified := args.is_verified.getD m.is_verified
        is_enabled := args.is_enabled.getD m.is_enabled
        supports_function_calling :=
          args.supports_function_calling.getD m.supports_function_calling
        supports_vision := args.supports_vision.getD m.supports_vision
        supports_prompt_cache := args.supports_prompt_cache.getD m.supports_prompt_cache
        supports_reasoning_effort :=
          args.supports_reasoning_effort.getD m.supports_reasoning_effort } := by
  rcases args with ⟨a, b, c, d, e, f⟩
  cases a <;> cases b <;> cases c <;> cases d <;> cases e <;> cases f <;> rfl

@[simp] theorem applyUpdateArgs_id (args : UpdateArgs) (m : VerifiedModel) :
    (applyUpdateArgs args m).id = m.id := by
  rw [applyUpdateArgs_eq]

@[simp] theorem applyUpdateArgs_model_name (args : UpdateArgs) (m : VerifiedModel) :
    (applyUpdateArgs args m).model_name = m.model_name := by
  rw [applyUpdateArgs_eq]

@[simp] theorem applyUpdateArgs_provider (args : UpdateArgs) (m : VerifiedModel) :
    (applyUpdateArgs args m).provider = m.provider := by
  rw [applyUpdateArgs_eq]

@[simp] theorem applyUpdateArgs_created_at (args : UpdateArgs) (m : VerifiedModel) :
    (applyUpdateArgs args m).created_at = m.created_at := by
  rw [applyUpdateArgs_eq]

@[simp] theorem applyUpdateArgs_updated_at (args : UpdateArgs) (m : VerifiedModel) :
    (applyUpdateArgs args m).updated_at = m.updated_at := by
  rw [applyUpdateArgs_eq]

@[simp] theorem applyUpdateArgs_is_verified (args : UpdateArgs) (m : VerifiedModel) :
    (applyUpdateArgs args m).is_verified = args.is_verified.getD m.is_verified := by
  rw [applyUpdateArgs_eq]

@[simp] theorem applyUpdateArgs_is_enabled (args : UpdateArgs) (m : VerifiedModel) :
    (applyUpdateArgs args m).is_enabled = args.is_enabled.getD m.is_enabled := by
  rw [applyUpdateArgs_eq]

@[simp] theorem applyUpdateArgs_supports_function_calling (args : UpdateArgs) (m : VerifiedModel) :
    (applyUpdateArgs args m).supports_function_calling =
      args.supports_function_calling.getD m.supports_function_calling := by
  rw [applyUpdateArgs_eq]

@[simp] theorem applyUpdateArgs_supports_vision (args : UpdateArgs) (m : VerifiedModel) :
    (applyUpdateArgs args m).supports_vision = args.supports_vision.getD m.supports_vision := by
  rw [applyUpdateArgs_eq]

@[simp] theorem applyUpdateArgs_supports_prompt_cache (args : UpdateArgs) (m : VerifiedModel) :
    (applyUpdateArgs args m).supports_prompt_cache =
      args.supports_prompt_cache.getD m.supports_prompt_cache := by
  rw [applyUpdateArgs_eq]

@[simp] theorem applyUpdateArgs_supports_reasoning_effort (args : UpdateArgs) (m : VerifiedModel) :
    (applyUpdateArgs args m).supports_reasoning_effort =
      args.supports_reasoning_effort.getD m.supports_reasoning_effort := by
  rw [applyUpdateArgs_eq]

theorem eq_of_idsNodup {l : List VerifiedModel} (h : idsNodup l) {a b : VerifiedModel}
    (ha : a ∈ l) (hb : b ∈ l) (hid : a.id = b.id) : a = b :=
  List.inj_on_of_nodup_map h ha hb hid

/-- Replacing the row found by name (an `UPDATE` by its primary key) makes
the replacement the first name match, provided primary keys are unique and
the replacement keeps the name. -/
theorem find?_map_replace {l : List VerifiedModel} {m0 final : VerifiedModel} {name : String}
    (hid : idsNodup l)
    (hfind : l.find? (fun r => r.model_name == name) = some m0)
    (hname : final.model_name = name) :
    (l.map (fun r => if r.id == m0.id then final else r)).find?
        (fun r => r.model_name == name) = some final := by
  induction l with
  | nil => simp at hfind
  | cons a t ih =>
    by_cases hp : a.model_name = name
    · have hpa : (a.model_name == name) = true := by simp [hp]
      rw [List.find?_cons_of_pos t hpa] at hfind
      have ha : a = m0 := by injection hfind
      subst ha
      simp only [List.map_cons, beq_self_eq_true, if_true]
      exact List.find?_cons_of_pos _ (by simp [hname])
    · have hpa : ¬ (a.model_name == name) = true := by simp [hp]
      rw [List.find?_cons_of_neg t hpa] at hfind
      have hm0t : m0 ∈ t := List.mem_of_find?_eq_some hfind
      have hneq : ¬ a.id = m0.id := by
        intro he
        simp only [idsNodup, List.map_cons, List.nodup_cons] at hid
        exact hid.1 (he ▸ List.mem_map_of_mem (fun r => r.id) hm0t)
      simp only [List.map_cons]
      rw [if_neg (by simp [hneq])]
      rw [List.find?_cons_of_neg (p := fun r : VerifiedModel => r.model_name == name) _ hpa]
      exact ih hid.of_cons hfind

/-- Replacing a row by primary key with a row of the same name leaves the
name column unchanged. -/
theorem map_replace_names {l : List VerifiedModel} {m0 final : VerifiedModel}
    (hid : idsNodup l) (hm0 : m0 ∈ l) (hname : final.model_name = m0.model_name) :
    (l.map (fun r => if r.id == m0.id then final else r)).map (fun m => m.model_name) =
      l.map (fun m => m.model_name) := by
  rw [List.map_map]
  apply List.map_congr_left
  intro r hr
  by_cases hc : r.id = m0.id
  · have : r = m0 := eq_of_idsNodup hid hr hm0 hc
    subst this
    simp [Function.comp, hname]
  · simp [Function.comp, hc]

/-- Replacing a row by primary key with a row of the same key leaves the
key column unchanged. -/
theorem map_replace_ids {l : List VerifiedModel} {m0 final : VerifiedModel}
    (hfid : final.id = m0.id) :
    (l.map (fun r => if r.id == m0.id then final else r)).map (fun m => m.id) =
      l.map (fun m => m.id) := by
  rw [List.map_map]
  apply List.map_congr_left
  intro r hr
  by_cases hc : r.id = m0.id
  · simp [Function.comp, hc, hfid]
  · simp [Function.comp, hc]

/-- Inserting a row whose name the duplicate check found absent, with the
next sequence value as key, preserves well-formedness. -/
theorem WFT_insert {t : List VerifiedModel} {n : Nat} {args : CreateArgs} (now : Nat)
    (h : WFT t n)
    (hfind : t.find? (fun m => m.model_name == args.model_name) = none) :
    WFT (t ++ [mkModel n args now]) (n + 1) := by
  obtain ⟨hn, hi, hb⟩ := h
  refine ⟨?_, ?_, ?_⟩
  · show (List.map (fun m => m.model_name) (t ++ [mkModel n args now])).Nodup
    rw [List.map_append, List.nodup_append]
    refine ⟨hn, by simp, ?_⟩
    intro s hs
    simp only [List.map_cons, List.map_nil, List.mem_singleton]
    intro he
    obtain ⟨m, hm, hms⟩ := List.mem_map.mp hs
    have := List.find?_eq_none.mp hfind m hm
    simp only [mkModel] at he
    exact this (by simp [hms, he])
  · show (List.map (fun m => m.id) (t ++ [mkModel n args now])).Nodup
    rw [List.map_append, List.nodup_append]
    refine ⟨hi, by simp, ?_⟩
    intro s hs
    simp only [List.map_cons, List.map_nil, List.mem_singleton]
    intro he
    obtain ⟨m, hm, hms⟩ := List.mem_map.mp hs
    have := hb m hm
    simp only [mkModel] at he
    omega
  · intro m hm
    rcases List.mem_append.mp hm with hm | hm
    · exact Nat.lt_succ_of_lt (hb m hm)
    · simp only [List.mem_singleton] at hm
      simp [hm, mkModel]

/-- The rows the fault-free bulk loop adds keep the table well-formed, with
the sequence advanced by the number of inserts. -/
theorem bulkInserted_WFT :
    ∀ (items : List CreateArgs) (visible : List VerifiedModel) (nid now : Nat),
      WFT visible nid →
      WFT (visible ++ bulkInserted visible nid items now)
        (nid + (bulkInserted visible nid items now).length) := by
  intro items
  induction items with
  | nil => intro visible nid now h; simpa [bulkInserted] using h
  | cons item rest ih =>
    intro visible nid now h
    rw [bulkInserted]
    cases hfind : visible.find? (fun m => m.model_name == item.model_name) with
    | some m => exact ih visible nid now h
    | none =>
      have h2 := ih (visible ++ [mkModel nid item now]) (nid + 1) now
        (WFT_insert now h hfind)
      rw [List.append_assoc, List.singleton_append] at h2
      have hlen : nid + 1 + (bulkInserted (visible ++ [mkModel nid item now]) (nid + 1) rest now).length =
          nid + ((bulkInserted (visible ++ [mkModel nid item now]) (nid + 1) rest now).length + 1) := by
        omega
      rw [hlen] at h2
      simpa using h2

/-- With no fault injected, the loop returns the inserted rows appended to
what was visible, their count, and the advanced sequence. -/
theorem bulkLoop_noFault :
    ∀ (items : List CreateArgs) (visible : List VerifiedModel) (nid idx now : Nat),
      bulkLoop visible nid items idx BulkFault.noFault now =
        Except.ok ((bulkInserted visible nid items now).length,
          visible ++ bulkInserted visible nid items now,
          nid + (bulkInserted visible nid items now).length) := by
  intro items
  induction items with
  | nil => intro visible nid idx now; simp [bulkLoop, bulkInserted]
  | cons item rest ih =>
    intro visible nid idx now
    rw [bulkLoop, bulkInserted]
    simp only [show (BulkFault.noFault == BulkFault.atItem idx) = false from rfl,
      Bool.false_eq_true, if_false]
    cases hfind : visible.find? (fun m => m.model_name == item.model_name) with
    | some m => exact ih visible nid (idx + 1) now
    | none =>
      rw [ih (visible ++ [mkModel nid item now]) (nid + 1) (idx + 1) now]
      simp [List.append_assoc, List.singleton_append]
      omega

/-- Every row the bulk loop inserts has a name that was absent from the
rows visible when the batch began. -/
theorem bulkInserted_fresh :
    ∀ (items : List CreateArgs) (visible : List VerifiedModel) (nid now : Nat)
      (m : VerifiedModel), m ∈ bulkInserted visible nid items now →
      visible.find? (fun r => r.model_name == m.model_name) = none := by
  intro items
  induction items with
  | nil => intro visible nid now m hm; simp [bulkInserted] at hm
  | cons item rest ih =>
    intro visible nid now m hm
    rw [bulkInserted] at hm
    cases hfind : visible.find? (fun r => r.model_name == item.model_name) with
    | some v => rw [hfind] at hm; exact ih visible nid now m hm
    | none =>
      rw [hfind] at hm
      rcases List.mem_cons.mp hm with hm | hm
      · subst hm; exact hfind
      · exact find?_append_none_left (ih (visible ++ [mkModel nid item now]) (nid + 1) now m hm)

/-- Every row the bulk loop inserts is the first name match in the
committed table (old rows, then the batch's inserts, in order). -/
theorem bulkInserted_find? :
    ∀ (items : List CreateArgs) (visible : List VerifiedModel) (nid now : Nat)
      (m : VerifiedModel), m ∈ bulkInserted visible nid items now →
      (visible ++ bulkInserted visible nid items now).find?
          (fun r => r.model_name == m.model_name) = some m := by
  intro items
  induction items with
  | nil => intro visible nid now m hm; simp [bulkInserted] at hm
  | cons item rest ih =>
    intro visible nid now m hm
    cases hfind : visible.find? (fun r => r.model_name == item.model_name) with
    | some v =>
      rw [bulkInserted, hfind] at hm
      rw [bulkInserted, hfind]
      exact ih visible nid now m hm
    | none =>
      rw [bulkInserted, hfind] at hm
      rw [bulkInserted, hfind]
      rcases List.mem_cons.mp hm with hm | hm
      · subst hm
        have h3 : visible.find?
            (fun r => r.model_name == (mkModel nid item now).model_name) = none := by
          simpa using hfind
        rw [find?_append_none h3]
        exact List.find?_cons_of_pos _ (by simp)
      · have h2 := ih (visible ++ [mkModel nid item now]) (nid + 1) now m hm
        rw [List.append_assoc, List.singleton_append] at h2
        exact h2

/-- After a fault-free bulk call, every batch item's name has a row in the
resulting table (it was there already, or this batch inserted it). -/
theorem bulkInserted_covers :
    ∀ (items : List CreateArgs) (visible : List VerifiedModel) (nid now : Nat)
      (item : CreateArgs), item ∈ items →
      ((visible ++ bulkInserted visible nid items now).find?
          (fun r => r.model_name == item.model_name)).isSome := by
  intro items
  induction items with
  | nil => intro visible nid now it hit; simp at hit
  | cons item rest ih =>
    intro visible nid now it hit
    cases hfind : visible.find? (fun r => r.model_name == item.model_name) with
    | some v =>
      rw [bulkInserted, hfind]
      rcases List.mem_cons.mp hit with hit | hit
      · subst hit; rw [find?_append_some hfind]; rfl
      · exact ih visible nid now it hit
    | none =>
      rw [bulkInserted, hfind]
      rcases List.mem_cons.mp hit with hit | hit
      · subst hit
        rw [find?_append_none hfind, List.find?_cons_of_pos _ (by simp)]
        rfl
      · have h2 := ih (visible ++ [mkModel nid item now]) (nid + 1) now it hit
        rw [List.append_assoc, List.singleton_append] at h2
        exact h2

/-- An exception injected at the commit makes the loop fail. -/
theorem bulkLoop_atCommit :
    ∀ (items : List CreateArgs) (visible : List VerifiedModel) (nid idx now : Nat),
      bulkLoop visible nid items idx BulkFault.atCommit now = Except.error () := by
  intro items
  induction items with
  | nil => intro visible nid idx now; rfl
  | cons item rest ih =>
    intro visible nid idx now
    rw [bulkLoop]
    simp only [show (BulkFault.atCommit == BulkFault.atItem idx) = false from rfl,
      Bool.false_eq_true, if_false]
    cases hfind : visible.find? (fun m => m.model_name == item.model_name) with
    | some m => exact ih visible nid (idx + 1) now
    | none => rw [ih (visible ++ [mkModel nid item now]) (nid + 1) (idx + 1) now]

/-- An exception injected at any step the iteration reaches makes the loop
fail. -/
theorem bulkLoop_atItem :
    ∀ (items : List CreateArgs) (visible : List VerifiedModel) (nid idx i now : Nat),
      idx ≤ i → i < idx + items.length →
      bulkLoop visible nid items idx (BulkFault.atItem i) now = Except.error () := by
  intro items
  induction items with
  | nil => intro visible nid idx i now h1 h2; simp at h2; omega
  | cons item rest ih =>
    intro visible nid idx i now h1 h2
    rw [bulkLoop]
    by_cases he : i = idx
    · subst he
      rw [if_pos (by simp)]
    · have hb : (BulkFault.atItem i == BulkFault.atItem idx) = false := by
        simp [he]
      rw [hb]
      simp only [Bool.false_eq_true, if_false]
      have h1' : idx + 1 ≤ i := by omega
      have h2' : i < idx + 1 + rest.length := by simp at h2; omega
      cases hfind : visible.find? (fun m => m.model_name == item.model_name) with
      | some m => exact ih visible nid (idx + 1) i now h1' h2'
      | none => rw [ih (visible ++ [mkModel nid item now]) (nid + 1) (idx + 1) i now h1' h2']

/-- `create_model` preserves well-formedness (a duplicate error leaves the
state untouched). -/
theorem create_model_WF {db : DB} {args : CreateArgs} {now : Nat} (h : WFDB db) :
    WFDB (applyOp db (StoreOp.createOp args now)) := by
  rw [applyOp, create_model]
  cases hfind : db.table.find? (fun m => m.model_name == args.model_name) with
  | some m => exact h
  | none => exact WFT_insert now h hfind

/-- `bulk_create_models` preserves well-formedness: the duplicate-skipping
loop only commits fresh names, and a rollback restores the old state. -/
theorem bulk_create_models_WF {db : DB} {items : List CreateArgs}
    {fault : BulkFault} {now : Nat} (h : WFDB db) :
    WFDB (applyOp db (StoreOp.bulkOp items fault now)) := by
  rw [applyOp, bulk_create_models]
  cases hl : bulkLoop db.table db.nextId items 0 fault now with
  | error e => exact h
  | ok r =>
    have hok := hl
    cases fault with
    | noFault =>
      rw [bulkLoop_noFault items db.table db.nextId 0 now] at hok
      injection hok with hr
      subst hr
      exact bulkInserted_WFT items db.table db.nextId now h
    | atItem i =>
      by_cases hi : i < items.length
      · rw [bulkLoop_atItem items db.table db.nextId 0 i now (Nat.zero_le i) (by omega)] at hok
        exact absurd hok (by simp)
      · -- an exception point past the batch never fires: the loop behaves as fault-free
        have hsame : ∀ (its : List CreateArgs) (visible : List VerifiedModel)
            (nid idx now2 : Nat), idx + its.length ≤ i →
            bulkLoop visible nid its idx (BulkFault.atItem i) now2 =
              bulkLoop visible nid its idx BulkFault.noFault now2 := by
          intro its
          induction its with
          | nil => intro visible nid idx now2 hle; rfl
          | cons a t ih2 =>
            intro visible nid idx now2 hle
            simp only [List.length_cons] at hle
            rw [bulkLoop, bulkLoop]
            have : (BulkFault.atItem i == BulkFault.atItem idx) = false := by
              simp; omega
            rw [this]
            simp only [show (BulkFault.noFault == BulkFault.atItem idx) = false from rfl,
              Bool.false_eq_true, if_false]
            cases hf : visible.find? (fun m => m.model_name == a.model_name) with
            | some m => exact ih2 visible nid (idx + 1) now2 (by omega)
            | none => rw [ih2 (visible ++ [mkModel nid a now2]) (nid + 1) (idx + 1) now2 (by omega)]
        rw [hsame items db.table db.nextId 0 now (by omega),
          bulkLoop_noFault items db.table db.nextId 0 now] at hok
        injection hok with hr
        subst hr
        exact bulkInserted_WFT items db.table db.nextId now h
    | atCommit =>
      rw [bulkLoop_atCommit items db.table db.nextId 0 now] at hok
      exact absurd hok (by simp)

/-- `update_model` preserves well-formedness: it never changes `model_name`
or `id`, and the `UPDATE` targets the unique primary key. -/
theorem update_model_WF {db : DB} {name : String} {args : UpdateArgs} {now : Nat}
    (h : WFDB db) : WFDB (applyOp db (StoreOp.updateOp name args now)) := by
  rw [applyOp]
  cases hfind : db.table.find? (fun m => m.model_name == name) with
  | none =>
    simp only [update_model, hfind]
    exact h
  | some model =>
    by_cases hch : applyUpdateArgs args model = model
    · have hb : (applyUpdateArgs args model == model) = true := by simp [hch]
      simp only [update_model, hfind, hb, if_true]
      exact h
    · have hbf : (applyUpdateArgs args model == model) = false := by simp [hch]
      simp only [update_model, hfind, hbf, Bool.false_eq_true, if_false]
      obtain ⟨hn, hi, hb⟩ := h
      have hmem : model ∈ db.table := List.mem_of_find?_eq_some hfind
      have hfname : ({ applyUpdateArgs args model with updated_at := now }).model_name =
          model.model_name := by
        rw [applyUpdateArgs_eq]
      have hfid : ({ applyUpdateArgs args model with updated_at := now }).id = model.id := by
        rw [applyUpdateArgs_eq]
      refine ⟨?_, ?_, ?_⟩
      · show namesNodup (db.table.map
          (fun r => if r.id == model.id then { applyUpdateArgs args model with updated_at := now } else r))
        unfold namesNodup
        rw [map_replace_names hi hmem hfname]
        exact hn
      · show idsNodup (db.table.map
          (fun r => if r.id == model.id then { applyUpdateArgs args model with updated_at := now } else r))
        unfold idsNodup
        rw [map_replace_ids hfid]
        exact hi
      · intro r hr
        obtain ⟨s, hs, hsr⟩ := List.mem_map.mp hr
        by_cases hc : s.id = model.id
        · rw [if_pos (by simp [hc])] at hsr
          rw [← hsr]
          simp only [applyUpdateArgs_id]
          exact hb model hmem
        · rw [if_neg (by simp [hc])] at hsr
          rw [← hsr]
          exact hb s hs

/-- `delete_model` preserves well-formedness: it only removes rows. -/
theorem delete_model_WF {db : DB} {name : String} (h : WFDB db) :
    WFDB (applyOp db (StoreOp.deleteOp name)) := by
  rw [applyOp, delete_model]
  cases hfind : db.table.find? (fun m => m.model_name == name) with
  | none => exact h
  | some model =>
    obtain ⟨hn, hi, hb⟩ := h
    have hsub : (db.table.filter (fun r => !(r.id == model.id))).Sublist db.table :=
      List.filter_sublist db.table
    refine ⟨?_, ?_, ?_⟩
    · exact List.Nodup.sublist (hsub.map (fun m => m.model_name)) hn
    · exact List.Nodup.sublist (hsub.map (fun m => m.id)) hi
    · intro r hr
      exact hb r (hsub.subset hr)

/-- Every store operation preserves well-formedness. -/
theorem applyOp_WF {db : DB} (op : StoreOp) (h : WFDB db) : WFDB (applyOp db op) := by
  cases op with
  | createOp args now => exact create_model_WF h
  | bulkOp items fault now => exact bulk_create_models_WF h
  | updateOp name args now => exact update_model_WF h
  | deleteOp name => exact delete_model_WF h

/-- Every sequence of store operations preserves well-formedness. -/
theorem runOps_WF (ops : List StoreOp) : ∀ (db : DB), WFDB db → WFDB (runOps db ops) := by
  induction ops with
  | nil => intro db h; exact h
  | cons op rest ih =>
    intro db h
    exact ih (applyOp db op) (applyOp_WF op h)

/-! ## The claims -/

/-- Claim C1: from any schema-valid state whose rows already have pairwise
distinct `model_name`s (and, as the schema guarantees, distinct primary
keys with the sequence ahead of them), every sequence of store operations —
`create_model`, `bulk_create_models`, `update_model`, `delete_model` —
leaves the table with pairwise distinct `model_name`s; the uniqueness is on
the name alone, regardless of `provider`. -/
theorem C1_model_name_unique (db : DB) (ops : List StoreOp) (h : WFDB db) :
    namesNodup (runOps db ops).table :=
  (runOps_WF ops db h).1

theorem C1_model_name_unique_witness :
    namesNodup (runOps emptyDb
      [StoreOp.createOp { model_name := "a", provider := "p" } 1,
        StoreOp.bulkOp
          [{ model_name := "a", provider := "q" }, { model_name := "b", provider := "p" }]
          BulkFault.noFault 2,
        StoreOp.updateOp "a" { is_enabled := some false } 3,
        StoreOp.deleteOp "b"]).table :=
  C1_model_name_unique emptyDb
    [StoreOp.createOp { model_name := "a", provider := "p" } 1,
      StoreOp.bulkOp
        [{ model_name := "a", provider := "q" }, { model_name := "b", provider := "p" }]
        BulkFault.noFault 2,
      StoreOp.updateOp "a" { is_enabled := some false } 3,
      StoreOp.deleteOp "b"] (by decide)

/-- Claim C2: when an unexpected error strikes `bulk_create_models` during
the iteration or at the commit, the whole transaction rolls back — the
returned state is the original database, no batch row persisted — and the
error propagates; no partial count is returned as a success. -/
theorem C2_bulk_all_or_nothing (db : DB) (items : List CreateArgs)
    (fault : BulkFault) (now : Nat) (h : faultFires fault items) :
    bulk_create_models db items fault now = (Except.error (), db) := by
  rw [bulk_create_models]
  cases fault with
  | noFault => exact absurd h (by simp [faultFires])
  | atItem i =>
    rw [bulkLoop_atItem items db.table db.nextId 0 i now (Nat.zero_le i)
      (by simpa [faultFires] using h)]
  | atCommit => rw [bulkLoop_atCommit items db.table db.nextId 0 now]

theorem C2_bulk_all_or_nothing_witness :
    bulk_create_models exDb bulkItems (BulkFault.atItem 1) 7 = (Except.error (), exDb) :=
  C2_bulk_all_or_nothing exDb bulkItems (BulkFault.atItem 1) 7 (by decide)

/-- Claim C3 counterexample: the claim says `updated_at` strictly advances
on every `update_model` call on an existing name, "including the case where
every optional field argument is null".  On `exDb`, whose row `"m"` exists
with `updated_at = 0`, the all-null call at clock 5 assigns no attribute, so
the ORM flushes no `UPDATE`, the `onupdate` hook never fires, and the call
returns the row with `updated_at` still 0 and the state unchanged. -/
theorem C3_counterexample_all_null :
    (get_model_by_name exDb "m").isSome = true ∧
    exRow.updated_at = 0 ∧
    update_model exDb "m" noUpdate 5 = (some exRow, exDb) := by
  decide

/-- Claim C3 as amended: `update_model` on an existing name refreshes
`updated_at` to the transaction clock exactly when some supplied non-null
argument changes a stored value (then it strictly advances whenever the
clock has advanced); when the arguments make no net change — in particular
when every optional field argument is null — the row, `updated_at`
included, and the state are unchanged. -/
theorem C3_updated_at_refresh (db : DB) (name : String) (args : UpdateArgs)
    (now : Nat) (m0 : VerifiedModel)
    (hfind : db.table.find? (fun m => m.model_name == name) = some m0) :
    (applyUpdateArgs args m0 = m0 → update_model db name args now = (some m0, db)) ∧
    (applyUpdateArgs args m0 ≠ m0 →
      ∃ m, (update_model db name args now).1 = some m ∧ m.updated_at = now ∧
        (m0.updated_at < now → m0.updated_at < m.updated_at)) := by
  constructor
  · intro hch
    simp only [update_model, hfind, hch, beq_self_eq_true, if_true]
  · intro hch
    have hbf : (applyUpdateArgs args m0 == m0) = false := by simp [hch]
    refine ⟨{ applyUpdateArgs args m0 with updated_at := now }, ?_, rfl, ?_⟩
    · simp only [update_model, hfind, hbf, Bool.false_eq_true, if_false]
    · intro hlt
      simpa using hlt

theorem C3_updated_at_refresh_witness :
    (applyUpdateArgs enableOff exRow = exRow →
      update_model exDb "m" enableOff 5 = (some exRow, exDb)) ∧
    (applyUpdateArgs enableOff exRow ≠ exRow →
      ∃ m, (update_model exDb "m" enableOff 5).1 = some m ∧ m.updated_at = 5 ∧
        (exRow.updated_at < 5 → exRow.updated_at < m.updated_at)) :=
  C3_updated_at_refresh exDb "m" enableOff 5 exRow (by decide)

/-- Claim C4: for every existing row and every `update_model` call, exactly
the non-null field arguments overwrite the stored values; null-argument
fields and `id`, `model_name`, `provider`, `created_at` retain their prior
values; the updated row is returned, is what a lookup now yields, and rows
with other names are untouched.  (Primary keys are unique in any real
table state — the `UPDATE` targets the row by its key.) -/
theorem C4_partial_update_frame (db : DB) (name : String) (args : UpdateArgs)
    (now : Nat) (m0 : VerifiedModel) (hi : idsNodup db.table)
    (hfind : get_model_by_name db name = some m0) :
    updateFrameHolds db name args now m0 := by
  rw [get_model_by_name] at hfind
  have hm0name : m0.model_name = name := by
    have := List.find?_some hfind
    simpa using this
  have hmem : m0 ∈ db.table := List.mem_of_find?_eq_some hfind
  by_cases hch : applyUpdateArgs args m0 = m0
  · refine ⟨m0, db, ?_, ?_, ?_, ?_, ?_, ?_, ?_, rfl, rfl, rfl, rfl, hfind, ?_⟩
    · simp only [update_model, hfind, hch, beq_self_eq_true, if_true]
    · rw [← applyUpdateArgs_is_verified args m0, hch]
    · rw [← applyUpdateArgs_is_enabled args m0, hch]
    · rw [← applyUpdateArgs_supports_function_calling args m0, hch]
    · rw [← applyUpdateArgs_supports_vision args m0, hch]
    · rw [← applyUpdateArgs_supports_prompt_cache args m0, hch]
    · rw [← applyUpdateArgs_supports_reasoning_effort args m0, hch]
    · exact fun r hr _ => hr
  · have hbf : (applyUpdateArgs args m0 == m0) = false := by simp [hch]
    refine ⟨{ applyUpdateArgs args m0 with updated_at := now },
      { db with table := (db.table.map
          (fun r => if r.id == m0.id then { applyUpdateArgs args m0 with updated_at := now } else r)) },
      ?_, ?_, ?_, ?_, ?_, ?_, ?_, ?_, ?_, ?_, ?_, ?_, ?_⟩
    · simp only [update_model, hfind, hbf, Bool.false_eq_true, if_false]
    · simp [applyUpdateArgs_is_verified]
    · simp [applyUpdateArgs_is_enabled]
    · simp [applyUpdateArgs_supports_function_calling]
    · simp [applyUpdateArgs_supports_vision]
    · simp [applyUpdateArgs_supports_prompt_cache]
    · simp [applyUpdateArgs_supports_reasoning_effort]
    · simp
    · simp [hm0name]
    · simp
    · simp
    · show (db.table.map
          (fun r => if r.id == m0.id then { applyUpdateArgs args m0 with updated_at := now } else r)).find?
            (fun m => m.model_name == name) =
          some { applyUpdateArgs args m0 with updated_at := now }
      exact find?_map_replace hi hfind (by simp [hm0name])
    · intro r hr hne
      have hrid : ¬ r.id = m0.id := by
        intro he
        exact hne ((eq_of_idsNodup hi hr hmem he) ▸ hm0name)
      refine List.mem_map.mpr ⟨r, hr, ?_⟩
      rw [if_neg (by simp [hrid])]

theorem C4_partial_update_frame_witness :
    updateFrameHolds exDb "m" enableOff 5 exRow :=
  C4_partial_update_frame exDb "m" enableOff 5 exRow (by decide) (by decide)

/-- Claim C5: a fault-free `bulk_create_models` skips (without error or
overwrite) exactly the items whose `model_name` is already present, inserts
the rest after the existing rows, and returns the count actually inserted;
lookups of pre-existing names are unchanged, every inserted row's name was
fresh and is now retrievable, and afterwards every batch item's name
resolves. -/
theorem C5_bulk_skip_and_count (db : DB) (items : List CreateArgs) (now : Nat) :
    bulk_create_models db items BulkFault.noFault now =
      (Except.ok (bulkInserted db.table db.nextId items now).length,
        { table := db.table ++ bulkInserted db.table db.nextId items now,
          nextId := db.nextId + (bulkInserted db.table db.nextId items now).length }) ∧
    (∀ n : String, (db.table.find? (fun r => r.model_name == n)).isSome →
      get_model_by_name (bulk_create_models db items BulkFault.noFault now).2 n =
        get_model_by_name db n) ∧
    (∀ m ∈ bulkInserted db.table db.nextId items now,
      db.table.find? (fun r => r.model_name == m.model_name) = none ∧
      get_model_by_name (bulk_create_models db items BulkFault.noFault now).2 m.model_name =
        some m) ∧
    (∀ item ∈ items,
      (get_model_by_name (bulk_create_models db items BulkFault.noFault now).2
          item.model_name).isSome) := by
  have hrun : bulk_create_models db items BulkFault.noFault now =
      (Except.ok (bulkInserted db.table db.nextId items now).length,
        { table := db.table ++ bulkInserted db.table db.nextId items now,
          nextId := db.nextId + (bulkInserted db.table db.nextId items now).length }) := by
    rw [bulk_create_models, bulkLoop_noFault items db.table db.nextId 0 now]
  refine ⟨hrun, ?_, ?_, ?_⟩
  · intro n hn
    rw [hrun]
    cases h : db.table.find? (fun r => r.model_name == n) with
    | none => rw [h] at hn; exact absurd hn (by simp)
    | some v =>
      show ((db.table ++ bulkInserted db.table db.nextId items now).find?
        (fun m => m.model_name == n)) = get_model_by_name db n
      rw [find?_append_some h, get_model_by_name, h]
  · intro m hm
    refine ⟨bulkInserted_fresh items db.table db.nextId now m hm, ?_⟩
    rw [hrun]
    exact bulkInserted_find? items db.table db.nextId now m hm
  · intro item hit
    rw [hrun]
    exact bulkInserted_covers items db.table db.nextId now item hit

theorem C5_bulk_skip_and_count_witness :
    (bulk_create_models exDb bulkItems BulkFault.noFault 9).1 = Except.ok 2 ∧
    get_model_by_name (bulk_create_models exDb bulkItems BulkFault.noFault 9).2 "m" =
      some exRow ∧
    (get_model_by_name (bulk_create_models exDb bulkItems BulkFault.noFault 9).2
      "b").isSome = true ∧
    (get_model_by_name (bulk_create_models exDb bulkItems BulkFault.noFault 9).2
      "c").isSome = true := by
  rw [(C5_bulk_skip_and_count exDb bulkItems 9).1]
  decide

/-- Claim C6: `create_model` raises the duplicate-name `ValueError` exactly
when a row with the given `model_name` already exists — the check runs
before any insert, so the error leaves no trace — and after a successful
create, a second create with the same name fails with that error while the
first row stays present and queryable. -/
theorem C6_create_duplicate (db : DB) (args : CreateArgs) (now : Nat) :
    (create_model db args now =
        Except.error ("Model " ++ args.model_name ++ " already exists") ↔
      (db.table.find? (fun m => m.model_name == args.model_name)).isSome) ∧
    (∀ m1 db1, create_model db args now = Except.ok (m1, db1) →
      get_model_by_name db1 args.model_name = some m1 ∧
      (∀ r ∈ db.table, r ∈ db1.table) ∧
      (∀ (args2 : CreateArgs) (now2 : Nat), args2.model_name = args.model_name →
        create_model db1 args2 now2 =
          Except.error ("Model " ++ args2.model_name ++ " already exists"))) := by
  cases hf : db.table.find? (fun m => m.model_name == args.model_name) with
  | some v =>
    constructor
    · simp only [create_model, hf]
      simp
    · intro m1 db1 h
      simp only [create_model, hf] at h
      exact absurd h (by simp)
  | none =>
    constructor
    · simp only [create_model, hf]
      simp
    · intro m1 db1 h
      simp only [create_model, hf, Except.ok.injEq, Prod.mk.injEq] at h
      obtain ⟨hm, hdb⟩ := h
      subst hm
      subst hdb
      refine ⟨?_, ?_, ?_⟩
      · show ((db.table ++ [mkModel db.nextId args now]).find?
          (fun m => m.model_name == args.model_name)) =
            some (mkModel db.nextId args now)
        rw [find?_append_none hf]
        exact List.find?_cons_of_pos _ (by simp)
      · exact fun r hr => List.mem_append_left _ hr
      · intro args2 now2 hname2
        have hf2 : ((db.table ++ [mkModel db.nextId args now]).find?
            (fun m => m.model_name == args2.model_name)) =
              some (mkModel db.nextId args now) := by
          rw [hname2, find?_append_none hf]
          exact List.find?_cons_of_pos _ (by simp)
        simp only [create_model, hf2]

theorem C6_create_duplicate_witness :
    create_model exDb { model_name := "m", provider := "q" } 3 =
      Except.error ("Model " ++ "m" ++ " already exists") :=
  (C6_create_duplicate exDb { model_name := "m", provider := "q" } 3).1.mpr (by decide)

/-- Claim C7: `get_verified_models` returns exactly the rows with
`is_verified = true` and `is_enabled = true` (so a verified-but-disabled
row is excluded), and `get_enabled_models` returns exactly the rows with
`is_enabled = true`. -/
theorem C7_filter_semantics (db : DB) (m : VerifiedModel) :
    (m ∈ get_verified_models db ↔
      m ∈ db.table ∧ m.is_verified = true ∧ m.is_enabled = true) ∧
    (m ∈ get_enabled_models db ↔ m ∈ db.table ∧ m.is_enabled = true) := by
  constructor
  · simp [get_verified_models, List.mem_filter]
  · simp [get_enabled_models, List.mem_filter]

theorem C7_filter_semantics_witness :
    sampleModel 2 "m2" "a" true false 0 ∉ get_verified_models c10Db := by
  intro hmem
  have h := (C7_filter_semantics c10Db (sampleModel 2 "m2" "a" true false 0)).1.mp hmem
  exact absurd h.2.2 (by decide)

/-- Claim C8: with valid pagination values the list endpoint returns the
filtered result list sliced as `models[offset : offset + limit]` — element
`i` of the page is element `offset + i` of the filtered sequence. -/
theorem C8_pagination_slice (db : DB) (provider : Option String)
    (enabled_only verified_only : Bool) (limit offset : Int)
    (h1 : 1 ≤ limit) (h2 : limit ≤ 1000) (h3 : 0 ≤ offset) :
    list_verified_models db provider enabled_only verified_only limit offset =
      Except.ok ((((selectModels db provider enabled_only verified_only).drop
          offset.toNat).take limit.toNat).map model_to_response) ∧
    ∀ i : Nat, i < limit.toNat →
      ((((selectModels db provider enabled_only verified_only).drop
          offset.toNat).take limit.toNat).map model_to_response)[i]? =
        ((selectModels db provider enabled_only verified_only).map
          model_to_response)[offset.toNat + i]? := by
  constructor
  · rw [list_verified_models, if_neg (by omega), if_neg (by omega)]
  · intro i hi
    rw [List.getElem?_map, List.getElem?_take_of_lt hi, List.getElem?_drop,
      List.getElem?_map]

theorem C8_pagination_slice_witness :
    list_verified_models pagDb none false false 1 1 =
      Except.ok [model_to_response (sampleModel 2 "m2" "p" true true 0)] := by
  rw [(C8_pagination_slice pagDb none false false 1 1 (by decide) (by decide)
    (by decide)).1]
  rfl

/-- Claim C9 (code bug in the route validation): the documented rule — and
the code's own error message — require `model_name` to end with an
alphanumeric character, but the pattern is anchored with `$`, which in
Python also matches just before a trailing newline.  So the name "ab\n",
which ends with the non-alphanumeric `'\n'`, passes
`_validate_model_input`, the store is invoked, and the row is created. -/
theorem C9_trailing_newline_accepted :
    validate_model_input "ab\n" "p" = Except.ok () ∧
    "ab\n".data.getLast? = some '\n' ∧
    isAsciiAlnum '\n' = false ∧
    create_verified_model emptyDb badArgs 0 =
      Except.ok (model_to_response (mkModel 1 badArgs 0),
        { table := [mkModel 1 badArgs 0], nextId := 2 }) := by
  decide

/-- Claim C10: in the list endpoint a non-empty `provider` parameter wins
over both flags — the result is the enabled models of that provider no
matter what `verified_only`/`enabled_only` say, so a disabled row is never
returned from a provider-filtered list — a supplied-but-empty provider is
ignored like an absent one, and with no provider `verified_only` wins over
`enabled_only`. -/
theorem C10_provider_precedence (db : DB) (p : String)
    (enabled_only verified_only : Bool) (limit offset : Int) (hp : p ≠ "") :
    list_verified_models db (some p) enabled_only verified_only limit offset =
      list_verified_models db (some p) false false limit offset ∧
    (∀ l, list_verified_models db (some p) enabled_only verified_only limit offset =
        Except.ok l → ∀ r ∈ l, r.is_enabled = true ∧ r.provider = p) ∧
    list_verified_models db none enabled_only true limit offset =
      list_verified_models db none false true limit offset ∧
    list_verified_models db (some "") enabled_only verified_only limit offset =
      list_verified_models db none enabled_only verified_only limit offset := by
  have hsel : ∀ (eo vo : Bool), selectModels db (some p) eo vo =
      get_models_by_provider db p := by
    intro eo vo
    simp [selectModels, providerTruthy, hp]
  refine ⟨?_, ?_, ?_, ?_⟩
  · simp only [list_verified_models, hsel]
  · intro l hl r hr
    by_cases hv1 : limit < 1 ∨ limit > 1000
    · rw [list_verified_models, if_pos hv1] at hl
      exact absurd hl (by simp)
    · by_cases hv2 : offset < 0
      · rw [list_verified_models, if_neg hv1, if_pos hv2] at hl
        exact absurd hl (by simp)
      · rw [list_verified_models, if_neg hv1, if_neg hv2] at hl
        simp only [Except.ok.injEq] at hl
        subst hl
        obtain ⟨s, hs, hsr⟩ := List.mem_map.mp hr
        have hs2 : s ∈ selectModels db (some p) enabled_only verified_only :=
          List.drop_subset _ _ (List.take_subset _ _ hs)
        rw [hsel] at hs2
        obtain ⟨-, hflag⟩ := List.mem_filter.mp hs2
        simp only [Bool.and_eq_true, beq_iff_eq] at hflag
        rw [← hsr]
        simp [model_to_response, hflag.1, hflag.2]
  · simp only [list_verified_models]
    rfl
  · simp only [list_verified_models]
    rfl

theorem C10_provider_precedence_witness :
    list_verified_models c10Db (some "a") true false 100 0 =
      list_verified_models c10Db (some "a") false false 100 0 :=
  (C10_provider_precedence c10Db "a" true false 100 0 (by decide)).1
